import Mathlib

/-!
Verification of the two UANodeSet extraction tools of this repository:
mode A (`tools/extract_typedictionary`: locate one `UAVariable` by its
`NodeId` attribute and dump its base64 `ByteString` payload) and mode B
(the CSV exporter: scan every `UADataType` element and emit one
normalized CSV row per record).

The XML token stream, the subtree skip / selective decode primitives,
the field normalizer and the two main loops are embedded as executable
Lean functions, translated clause by clause from the Go source.
-/

/-! ## Field normalizer (mode B, `processOutputLine`) -/

/-- The Go regexp word class `\w` = `[0-9A-Za-z_]` (ASCII). -/
def isWordChar (c : Char) : Bool :=
  c.isAlpha || c.isDigit || c == '_'

/-- Model of `strings.ContainsRune`. -/
def hasChar (l : List Char) (a : Char) : Bool :=
  l.any (fun c => c == a)

/-- Model of `containsSpecialChars.MatchString`: regexp `[^\w]` matches
somewhere in the string. -/
def hasSpecial (l : List Char) : Bool :=
  l.any (fun c => !(isWordChar c))

/-- Model of `reNamespaceAndI.ReplaceAllString(s, "")` for the anchored
pattern `^ns=[0-9]+;i=`: drop the whole prefix when it is present. -/
def dropNsI (l : List Char) : List Char :=
  match l with
  | 'n' :: 's' :: '=' :: rest =>
    match rest.dropWhile Char.isDigit with
    | ';' :: 'i' :: '=' :: tail =>
      if rest.takeWhile Char.isDigit = [] then l else tail
    | _ => l
  | _ => l

/-- Model of `reNamespace.ReplaceAllString(s, "")` for the anchored
pattern `^ns=[0-9]+;`: drop the prefix, keeping what follows the
semicolon (for string IDs this keeps the `s=` part). -/
def dropNs (l : List Char) : List Char :=
  match l with
  | 'n' :: 's' :: '=' :: rest =>
    match rest.dropWhile Char.isDigit with
    | ';' :: tail =>
      if rest.takeWhile Char.isDigit = [] then l else tail
    | _ => l
  | _ => l

/-- Model of `strings.Replace(s, "\"", "\"\"", -1)`: double every
double-quote character. -/
def doubleQuotes : List Char → List Char
  | [] => []
  | c :: r => if c = '"' then '"' :: '"' :: doubleQuotes r else c :: doubleQuotes r

/-- Wrap a field in surrounding double quotes (`fmt.Sprintf("\"%s\"", s)`). -/
def wrapQ (l : List Char) : List Char :=
  '"' :: l ++ ['"']

/-- The per-field tail of `processOutputLine`: double the quotes, then wrap
the field in quotes when it contains a non-word character. -/
def emitField (x : List Char) : List Char :=
  let d := doubleQuotes x
  if hasSpecial d then wrapQ d else d

/-- The string-rewriting core of `processOutputLine`: from the raw
`DisplayName` and `NodeId` produce the two normalized CSV fields, in the
source's order: namespace stripping on the identifier, the conditional
label-quoting hack, quote doubling, then conditional quoting of
non-word fields. -/
def normFields (displayName dataType : List Char) : List Char × List Char :=
  let dt2 := dropNs (dropNsI dataType)
  let dn1 :=
    if hasChar dt2 '"' && !(hasChar displayName '"') then wrapQ displayName
    else displayName
  (emitField dn1, emitField dt2)

/-- A decoded `UADataType` record (mode B). -/
structure UADataType where
  NodeId : String
  DisplayName : String
deriving Repr, DecidableEq

/-- The comma-joined body of an output row, before the trailing newline:
`"%s,%s,DataType"`. -/
def lineBody (dn dt : List Char) : List Char :=
  dn ++ ',' :: (dt ++ ',' :: ("DataType".toList))

/-- The full line written by `processOutputLine` for one record,
newline included (`fmt.Sprintf("%s,%s,DataType\n", ...)`). -/
def outputLine (node : UADataType) : String :=
  let p := normFields node.DisplayName.toList node.NodeId.toList
  String.mk (lineBody p.1 p.2 ++ ['\n'])

/-! ## XML token stream

`encoding/xml.Decoder.Token` yields structural events; the events the two
main loops inspect are element starts (with local name and attribute
list), element ends, and character data.  A well-formed input stream is
abstracted as a finite list of such tokens; `Token() == nil` corresponds
to the end of the list. -/

/-- One XML token, as classified by the two main loops. -/
inductive Tok where
  | startE (name : String) (attrs : List (String × String))
  | endE
  | chardata (s : String)
deriving Repr, DecidableEq

/-- Walk tokens until the end-element matching the current position is
consumed (relative depth returns below `d`), splitting the stream into
the consumed subtree tokens and the remainder.  `none` models running
out of tokens first.  This is the cursor primitive underlying both
`Decoder.Skip` and `Decoder.DecodeElement`. -/
def takeSub (d : Nat) : List Tok → Option (List Tok × List Tok)
  | [] => none
  | .startE n as :: rest =>
    (takeSub (d + 1) rest).map (fun p => (.startE n as :: p.1, p.2))
  | .chardata s :: rest =>
    (takeSub d rest).map (fun p => (.chardata s :: p.1, p.2))
  | .endE :: rest =>
    match d with
    | 0 => some ([], rest)
    | d' + 1 => (takeSub d' rest).map (fun p => (.endE :: p.1, p.2))

theorem takeSub_snd_lt (l : List Tok) :
    ∀ d a b, takeSub d l = some (a, b) → b.length < l.length := by
  induction l with
  | nil => intro d a b h; simp [takeSub] at h
  | cons t rest ih =>
    intro d a b h
    cases t with
    | startE n as =>
      simp only [takeSub, Option.map_eq_some'] at h
      obtain ⟨p, hp, hpe⟩ := h
      cases hpe
      exact Nat.lt_trans (ih _ _ _ hp) (Nat.lt_succ_self _)
    | chardata s =>
      simp only [takeSub, Option.map_eq_some'] at h
      obtain ⟨p, hp, hpe⟩ := h
      cases hpe
      exact Nat.lt_trans (ih _ _ _ hp) (Nat.lt_succ_self _)
    | endE =>
      cases d with
      | zero =>
        simp only [takeSub] at h
        cases h
        exact Nat.lt_succ_self _
      | succ d' =>
        simp only [takeSub, Option.map_eq_some'] at h
        obtain ⟨p, hp, hpe⟩ := h
        cases hpe
        exact Nat.lt_trans (ih _ _ _ hp) (Nat.lt_succ_self _)

/-- Model of `Decoder.Skip`: consume tokens until the end element at the
current relative depth is consumed; `none` models the EOF error. -/
def skipToks (toks : List Tok) : Option (List Tok) :=
  (takeSub 0 toks).map (fun p => p.2)

theorem skipToks_getD_le (toks : List Tok) :
    ((skipToks toks).getD []).length ≤ toks.length := by
  unfold skipToks
  cases h : takeSub 0 toks with
  | none => simp
  | some p =>
    simp only [Option.map_some', Option.getD_some]
    exact Nat.le_of_lt (takeSub_snd_lt toks 0 p.1 p.2 (by simpa using h))

/-- First attribute named `NodeId`, as both Go loops look it up
(`attr.Name.Local == "NodeId"` / the `xml:",attr"` field binding). -/
def lookupNodeId (attrs : List (String × String)) : Option String :=
  (attrs.find? (fun a => a.1 == "NodeId")).map (fun a => a.2)

/-- Text content of the last direct child element named `name` inside an
already-extracted subtree token list: the concatenated character data
directly inside that child, as `encoding/xml` unmarshals a `string`
struct field (later occurrences of the child overwrite earlier ones).
State: current relative depth, whether the cursor is inside a matching
child, the text gathered so far, and the last completed result. -/
def lastChildText (name : String) : Nat → Bool → String → Option String →
    List Tok → Option String
  | _, _, _, res, [] => res
  | d, ins, buf, res, .chardata s :: r =>
    lastChildText name d ins (if ins && d == 1 then buf ++ s else buf) res r
  | d, ins, buf, res, .startE n _ :: r =>
    if d == 0 && n == name then lastChildText name 1 true "" res r
    else lastChildText name (d + 1) ins buf res r
  | d, ins, buf, res, .endE :: r =>
    if ins && d == 1 then lastChildText name 0 false "" (some buf) r
    else lastChildText name (d - 1) ins buf res r

/-- Subtree token list of the last direct child element named `name`
inside an already-extracted subtree token list (used for the nested
`Value`/`ByteString` binding of mode A). -/
def lastChildToks (name : String) : Nat → Bool → List Tok → Option (List Tok) →
    List Tok → Option (List Tok)
  | _, _, _, res, [] => res
  | d, ins, buf, res, t :: r =>
    match t with
    | .startE n _ =>
      if d == 0 && n == name then lastChildToks name 1 true [] res r
      else lastChildToks name (d + 1) ins (if ins then buf ++ [t] else buf) res r
    | .endE =>
      if ins && d == 1 then lastChildToks name 0 false [] (some buf) r
      else lastChildToks name (d - 1) ins (if ins then buf ++ [t] else buf) res r
    | .chardata _ => lastChildToks name d ins (if ins then buf ++ [t] else buf) res r

/-- Field extraction of `DecodeElement` into the mode-B struct: the
`NodeId` field carries the attr tag, so it comes from the start
element's attributes (zero value empty string when absent); the
`DisplayName` comes from the child element of that name. -/
def uaDataTypeOf (attrs : List (String × String)) (sub : List Tok) : UADataType :=
  { NodeId := (lookupNodeId attrs).getD ""
    DisplayName := (lastChildText "DisplayName" 0 false "" none sub).getD "" }

/-- A decoded `UAVariable` record (mode A): the display name and the raw
base64 text captured into `Value.ByteString`. -/
structure UAVariable where
  DisplayName : String
  ByteString : String
deriving Repr, DecidableEq

/-- Field extraction of `DecodeElement` into the mode-A struct
`UAVariable{DisplayName string; Value struct{ByteString []byte}}`: a
`[]byte` field captures the raw character data of the `ByteString`
child of the `Value` child. -/
def uaVariableOf (sub : List Tok) : UAVariable :=
  { DisplayName := (lastChildText "DisplayName" 0 false "" none sub).getD ""
    ByteString :=
      match lastChildToks "Value" 0 false [] none sub with
      | some v => (lastChildText "ByteString" 0 false "" none v).getD ""
      | none => "" }

/-- Model of `decoder.DecodeElement(&node, &se)` for a `UADataType`:
consume exactly the matched element's subtree, extract the record, and
leave the cursor immediately after the subtree's end element. -/
def decodeUADataType (attrs : List (String × String)) (toks : List Tok) :
    Option (UADataType × List Tok) :=
  (takeSub 0 toks).map (fun p => (uaDataTypeOf attrs p.1, p.2))

/-- Model of `decoder.DecodeElement(&node, &se)` for a `UAVariable`. -/
def decodeUAVariable (toks : List Tok) : Option (UAVariable × List Tok) :=
  (takeSub 0 toks).map (fun p => (uaVariableOf p.1, p.2))


/-! ## Base64 payload decoding (mode A)

Model of `base64.NewDecoder(base64.StdEncoding, ...)` driven by
`io.Copy`: newlines are stripped, four-character quanta are decoded in
sequence, and the first violation of the alphabet (or a trailing partial
quantum) stops the copy with an error.  The model returns the bytes
written before the error together with an error flag; the caller in the
source discards the flag, exactly as `io.Copy`'s error is discarded. -/

/-- Index of a character in the standard base64 alphabet. -/
def b64Index (c : Char) : Option Nat :=
  if 'A' ≤ c ∧ c ≤ 'Z' then some (c.toNat - 65)
  else if 'a' ≤ c ∧ c ≤ 'z' then some (c.toNat - 97 + 26)
  else if '0' ≤ c ∧ c ≤ '9' then some (c.toNat - 48 + 52)
  else if c = '+' then some 62
  else if c = '/' then some 63
  else none

/-- Decode one four-character quantum; the boolean marks a padded (final)
quantum.  `none` models `base64.CorruptInputError`. -/
def b64Group (c1 c2 c3 c4 : Char) : Option (List Nat × Bool) :=
  match b64Index c1, b64Index c2 with
  | some a, some b =>
    if c3 = '=' then
      if c4 = '=' then some ([a * 4 + b / 16], true) else none
    else
      match b64Index c3 with
      | some c =>
        if c4 = '=' then some ([a * 4 + b / 16, b % 16 * 16 + c / 4], true)
        else
          match b64Index c4 with
          | some e => some ([a * 4 + b / 16, b % 16 * 16 + c / 4, c % 4 * 64 + e], false)
          | none => none
      | none => none
  | _, _ => none

/-- Decode a whitespace-stripped character stream quantum by quantum,
returning the bytes produced before any error and whether an error
occurred. -/
def b64Run : List Char → List Nat × Bool
  | [] => ([], false)
  | c1 :: c2 :: c3 :: c4 :: rest =>
    match b64Group c1 c2 c3 c4 with
    | none => ([], true)
    | some (bs, ended) =>
      if ended then (bs, !(rest = ([] : List Char)))
      else
        let p := b64Run rest
        (bs ++ p.1, p.2)
  | _ => ([], true)

/-- Model of `io.Copy(outfile, base64Decoder)` over the captured
`ByteString` text: the bytes actually written to the output file, and
whether the copy ended in a decode error (a return value the source
ignores). -/
def ioCopyBase64 (s : String) : List Nat × Bool :=
  b64Run (s.toList.filter (fun c => !(c = '\n') && !(c = '\r')))

/-! ## Mode A main loop (`tools/extract_typedictionary/extract_typedictionary.go`) -/

/-- Outcome of a mode-A run.  `fatalEOF` is the `log.Fatalf` on a nil
token ("End of file encountered before finding it"), reached before any
output file is created; `fatalDecode` is the `log.Fatalf` on a
`DecodeElement` error; `finished` is the normal return after the
matched node's payload has been copied, carrying the bytes written to
the freshly created output file. -/
inductive ModeAOutcome where
  | fatalEOF
  | fatalDecode
  | finished (written : List Nat)
deriving Repr, DecidableEq

/-- Content of the mode-A output file after the run: `none` when the run
aborted before `os.Create` was reached. -/
def modeAFile : ModeAOutcome → Option (List Nat)
  | .finished w => some w
  | _ => none

/-- The mode-A token loop, returning the outcome together with the tokens
left unread when the loop stopped.  Clause by clause from the source:
a nil token is fatal; only start elements are dispatched; a
`UAVariable` start element is scanned for its first `NodeId` attribute;
a non-matching value is skipped (the `Skip` error is ignored); a
matching value is decoded, its payload base64-copied to the new output
file (the `io.Copy` error is ignored), and the function returns. -/
def modeALoop (target : String) (toks : List Tok) : ModeAOutcome × List Tok :=
  match toks with
  | [] => (.fatalEOF, [])
  | .startE n attrs :: rest =>
    if n = "UAVariable" then
      match lookupNodeId attrs with
      | some v =>
        if v = target then
          match decodeUAVariable rest with
          | none => (.fatalDecode, [])
          | some (node, rest1) =>
            (.finished (ioCopyBase64 node.ByteString).1, rest1)
        else modeALoop target ((skipToks rest).getD [])
      | none => modeALoop target rest
    else modeALoop target rest
  | _ :: rest => modeALoop target rest
termination_by toks.length
decreasing_by
  · exact Nat.lt_succ_of_le (skipToks_getD_le rest)
  · exact Nat.lt_succ_self _
  · exact Nat.lt_succ_self _
  · exact Nat.lt_succ_self _

/-! ## Mode B main loop (the CSV exporter's `main`) -/

/-- Outcome of a mode-B scan: the `log.Fatalf` on a `DecodeElement`
error, or the normal "End of file encountered, done!" return carrying
the CSV lines written, in emission order. -/
inductive ModeBResult where
  | fatalDecode
  | done (lines : List String)
deriving Repr, DecidableEq

/-- Cursor movement performed by the two empty-field branches after
`DecodeElement` has already consumed the record's subtree: each branch
whose field is empty invokes `decoder.Skip()` on the cursor (its error
ignored), exactly as the source does — without any `continue`. -/
def modeBHandleRest (node : UADataType) (r1 : List Tok) : List Tok :=
  let r2 := if node.NodeId = "" then (skipToks r1).getD [] else r1
  if node.DisplayName = "" then (skipToks r2).getD [] else r2

theorem modeBHandleRest_le (node : UADataType) (r1 : List Tok) :
    (modeBHandleRest node r1).length ≤ r1.length := by
  unfold modeBHandleRest
  by_cases hn : node.NodeId = "" <;> by_cases hd : node.DisplayName = "" <;>
    simp only [hn, hd, if_true, if_false]
  · exact Nat.le_trans (skipToks_getD_le _) (skipToks_getD_le r1)
  · exact skipToks_getD_le r1
  · exact skipToks_getD_le r1
  · exact Nat.le_refl _

/-- The mode-B token loop: a nil token ends the scan successfully; every
`UADataType` start element is decoded; an empty `NodeId` or
`DisplayName` triggers the logged skip branch (which only moves the
cursor — the record is still passed to `processOutputLine`, as in the
source); the formatted line is appended to the output. -/
def modeBLoop (toks : List Tok) (acc : List String) : ModeBResult :=
  match toks with
  | [] => .done acc
  | .startE n attrs :: rest =>
    if n = "UADataType" then
      match hdec : decodeUADataType attrs rest with
      | none => .fatalDecode
      | some (node, r1) =>
        modeBLoop (modeBHandleRest node r1) (acc ++ [outputLine node])
    else modeBLoop rest acc
  | _ :: rest => modeBLoop rest acc
termination_by toks.length
decreasing_by
  · have h1 : r1.length < rest.length := by
      have := takeSub_snd_lt rest 0
      unfold decodeUADataType at hdec
      cases ht : takeSub 0 rest with
      | none => rw [ht] at hdec; simp at hdec
      | some p =>
        rw [ht] at hdec
        simp only [Option.map_some'] at hdec
        cases hdec
        exact this p.1 p.2 (by simpa using ht)
    exact Nat.lt_trans
      (Nat.lt_of_le_of_lt (modeBHandleRest_le node r1) h1) (Nat.lt_succ_self _)
  · exact Nat.lt_succ_self _
  · exact Nat.lt_succ_self _

/-! ## Output file opening (mode B) -/

/-- Flags of `os.OpenFile` relevant to the destination file. -/
inductive OpenFlag where
  | oCREATE
  | oTRUNC
  | oWRONLY
  | oAPPEND
deriving Repr, DecidableEq

/-- The flag set the CSV exporter passes to `os.OpenFile` for its
destination: `os.O_CREATE|os.O_TRUNC|os.O_WRONLY`. -/
def modeBOpenFlags : List OpenFlag :=
  [.oCREATE, .oTRUNC, .oWRONLY]

/-- POSIX semantics of opening an existing or absent file with the given
flags: with `O_TRUNC` the file starts empty, otherwise (without
`O_APPEND` positioning aside) the prior content is retained. -/
def openedContent (flags : List OpenFlag) (existing : Option String) : String :=
  if flags.contains .oTRUNC then "" else existing.getD ""

/-- Final content of the mode-B destination file: whatever survives the
open, followed by the emitted rows in order. -/
def modeBFileResult (existing : Option String) (lines : List String) : String :=
  String.join (openedContent modeBOpenFlags existing :: lines)

/-! ## Well-formed documents as forests

For the universally quantified claims a well-formed XML document (or
sibling sequence) is modelled as a forest; `flat` is the token stream
the streaming parser would deliver for it. -/

/-- A forest of XML nodes: empty, a character-data node followed by its
right siblings, or an element (name, attributes, children) followed by
its right siblings. -/
inductive Forest where
  | nil
  | text (s : String) (rest : Forest)
  | elem (name : String) (attrs : List (String × String))
      (children : Forest) (rest : Forest)
deriving Repr, DecidableEq

/-- Token stream of a forest. -/
def flat : Forest → List Tok
  | .nil => []
  | .text s r => .chardata s :: flat r
  | .elem n as cs r => .startE n as :: (flat cs ++ (.endE :: flat r))

/-- No element anywhere in the forest (nested ones included) is a
`UAVariable` whose `NodeId` attribute equals `target`. -/
def noMatchAnywhere (target : String) : Forest → Bool
  | .nil => true
  | .text _ r => noMatchAnywhere target r
  | .elem n as cs r =>
    !(n == "UAVariable" &&
        (match lookupNodeId as with
         | some v => v == target
         | none => false)) &&
      noMatchAnywhere target cs && noMatchAnywhere target r

/-! ### Step lemmas for the cursor primitive and the mode-A loop -/

theorem takeSub_cons_start (d : Nat) (n : String) (as : List (String × String))
    (rest : List Tok) :
    takeSub d (.startE n as :: rest) =
      (takeSub (d + 1) rest).map (fun p => (.startE n as :: p.1, p.2)) := rfl

theorem takeSub_cons_char (d : Nat) (s : String) (rest : List Tok) :
    takeSub d (.chardata s :: rest) =
      (takeSub d rest).map (fun p => (.chardata s :: p.1, p.2)) := rfl

theorem takeSub_cons_end_zero (rest : List Tok) :
    takeSub 0 (.endE :: rest) = some ([], rest) := rfl

theorem takeSub_cons_end_succ (d : Nat) (rest : List Tok) :
    takeSub (d + 1) (.endE :: rest) =
      (takeSub d rest).map (fun p => (.endE :: p.1, p.2)) := rfl

/-- The subtree-extraction primitive over the token image of a forest:
consuming the flattened forest just passes it through, and the split is
decided by whatever follows. -/
theorem takeSub_flat (g : Forest) :
    ∀ (d : Nat) (k : List Tok),
      takeSub d (flat g ++ k) =
        (takeSub d k).map (fun p => (flat g ++ p.1, p.2)) := by
  induction g with
  | nil =>
    intro d k
    simp only [flat, List.nil_append]
    cases takeSub d k with
    | none => simp
    | some p => simp
  | text s r ih =>
    intro d k
    rw [flat, List.cons_append, takeSub_cons_char, ih d k]
    cases takeSub d k with
    | none => simp
    | some p => simp
  | elem n as cs r ihc ihr =>
    intro d k
    rw [flat, List.cons_append, List.append_assoc, List.cons_append,
      takeSub_cons_start, ihc (d + 1) (.endE :: (flat r ++ k)),
      takeSub_cons_end_succ, ihr d k]
    cases takeSub d k with
    | none => simp
    | some p => simp [List.append_assoc]

/-- `Decoder.Skip` invoked right after the start element of a subtree
lands exactly after the subtree's end element. -/
theorem skipToks_flat (cs : Forest) (k : List Tok) :
    skipToks (flat cs ++ (.endE :: k)) = some k := by
  unfold skipToks
  rw [takeSub_flat cs 0 (.endE :: k), takeSub_cons_end_zero]
  rfl

/-- `DecodeElement` invoked right after the start element of a
`UADataType` subtree extracts the record from exactly that subtree and
leaves the cursor after its end element. -/
theorem decodeUADataType_flat (attrs : List (String × String))
    (cs : Forest) (k : List Tok) :
    decodeUADataType attrs (flat cs ++ (.endE :: k)) =
      some (uaDataTypeOf attrs (flat cs), k) := by
  unfold decodeUADataType
  rw [takeSub_flat cs 0 (.endE :: k), takeSub_cons_end_zero]
  simp

/-- `DecodeElement` for a `UAVariable` subtree, same cursor contract. -/
theorem decodeUAVariable_flat (cs : Forest) (k : List Tok) :
    decodeUAVariable (flat cs ++ (.endE :: k)) =
      some (uaVariableOf (flat cs), k) := by
  unfold decodeUAVariable
  rw [takeSub_flat cs 0 (.endE :: k), takeSub_cons_end_zero]
  simp

theorem modeALoop_nil (target : String) :
    modeALoop target [] = (.fatalEOF, []) := by
  simp [modeALoop]

theorem modeALoop_char (target s : String) (rest : List Tok) :
    modeALoop target (.chardata s :: rest) = modeALoop target rest := by
  simp [modeALoop]

theorem modeALoop_endE (target : String) (rest : List Tok) :
    modeALoop target (.endE :: rest) = modeALoop target rest := by
  simp [modeALoop]

theorem modeALoop_start_notUAV (target n : String)
    (attrs : List (String × String)) (rest : List Tok)
    (h : ¬ n = "UAVariable") :
    modeALoop target (.startE n attrs :: rest) = modeALoop target rest := by
  simp [modeALoop, h]

theorem modeALoop_start_noNodeId (target : String)
    (attrs : List (String × String)) (rest : List Tok)
    (h : lookupNodeId attrs = none) :
    modeALoop target (.startE "UAVariable" attrs :: rest) =
      modeALoop target rest := by
  simp [modeALoop, h]

theorem modeALoop_start_skip (target v : String)
    (attrs : List (String × String)) (rest : List Tok)
    (h : lookupNodeId attrs = some v) (hv : ¬ v = target) :
    modeALoop target (.startE "UAVariable" attrs :: rest) =
      modeALoop target ((skipToks rest).getD []) := by
  simp [modeALoop, h, hv]

theorem modeALoop_start_found (target : String)
    (attrs : List (String × String)) (rest : List Tok)
    (h : lookupNodeId attrs = some target) :
    modeALoop target (.startE "UAVariable" attrs :: rest) =
      (match decodeUAVariable rest with
       | none => (.fatalDecode, [])
       | some (node, rest1) =>
         (.finished (ioCopyBase64 node.ByteString).1, rest1)) := by
  simp [modeALoop, h]

/-- The mode-A loop passes over the token image of any forest containing
no matching element, continuing with whatever follows. -/
theorem modeALoop_noMatch (target : String) (f : Forest) :
    ∀ k : List Tok, noMatchAnywhere target f = true →
      modeALoop target (flat f ++ k) = modeALoop target k := by
  induction f with
  | nil => intro k _; rw [flat, List.nil_append]
  | text s r ih =>
    intro k hm
    rw [flat, List.cons_append, modeALoop_char]
    exact ih k (by simpa [noMatchAnywhere] using hm)
  | elem n as cs r ihc ihr =>
    intro k hm
    simp only [noMatchAnywhere, Bool.and_eq_true] at hm
    obtain ⟨⟨hne, hmc⟩, hmr⟩ := hm
    rw [flat, List.cons_append, List.append_assoc, List.cons_append]
    by_cases hn : n = "UAVariable"
    · subst hn
      cases hv : lookupNodeId as with
      | none =>
        rw [modeALoop_start_noNodeId target as _ hv,
          ihc (.endE :: (flat r ++ k)) hmc, modeALoop_endE]
        exact ihr k hmr
      | some v =>
        have hvt : ¬ v = target := by
          intro hcon
          rw [hv, hcon] at hne
          simp at hne
        rw [modeALoop_start_skip target v as _ hv hvt,
          skipToks_flat cs (flat r ++ k)]
        exact ihr k hmr
    · rw [modeALoop_start_notUAV target n as _ hn,
        ihc (.endE :: (flat r ++ k)) hmc, modeALoop_endE]
      exact ihr k hmr

/-! ### Step lemmas for the mode-B loop -/

theorem modeBLoop_nil (acc : List String) : modeBLoop [] acc = .done acc := by
  simp [modeBLoop]

theorem modeBLoop_char (s : String) (rest : List Tok) (acc : List String) :
    modeBLoop (.chardata s :: rest) acc = modeBLoop rest acc := by
  simp [modeBLoop]

theorem modeBLoop_endE (rest : List Tok) (acc : List String) :
    modeBLoop (.endE :: rest) acc = modeBLoop rest acc := by
  simp [modeBLoop]

theorem modeBLoop_start_other (n : String) (attrs : List (String × String))
    (rest : List Tok) (acc : List String) (h : ¬ n = "UADataType") :
    modeBLoop (.startE n attrs :: rest) acc = modeBLoop rest acc := by
  simp [modeBLoop, h]

theorem modeBLoop_start_none (attrs : List (String × String)) (rest : List Tok)
    (acc : List String) (h : decodeUADataType attrs rest = none) :
    modeBLoop (.startE "UADataType" attrs :: rest) acc = .fatalDecode := by
  simp only [modeBLoop, eq_self_iff_true, if_true]
  split
  · rfl
  · rename_i heq
    rw [h] at heq
    simp at heq

theorem modeBLoop_start_some (attrs : List (String × String)) (rest : List Tok)
    (acc : List String) (node : UADataType) (r1 : List Tok)
    (h : decodeUADataType attrs rest = some (node, r1)) :
    modeBLoop (.startE "UADataType" attrs :: rest) acc =
      modeBLoop (modeBHandleRest node r1) (acc ++ [outputLine node]) := by
  simp only [modeBLoop, eq_self_iff_true, if_true]
  split
  · rename_i heq
    rw [h] at heq
    simp at heq
  · rename_i heq
    rw [h] at heq
    simp only [Option.some.injEq, Prod.mk.injEq] at heq
    rw [heq.1, heq.2]


/-! ### Word-only fields and the normalizer -/

theorem hasChar_eq_false (l : List Char) (a : Char)
    (h : ∀ c ∈ l, isWordChar c = true) (ha : isWordChar a = false) :
    hasChar l a = false := by
  induction l with
  | nil => rfl
  | cons c r ih =>
    have hc : isWordChar c = true := h c (List.mem_cons_self c r)
    have hr := ih (fun x hx => h x (List.mem_cons_of_mem c hx))
    simp only [hasChar, List.any_cons] at hr ⊢
    have hca : (c == a) = false := by
      by_cases hcc : c = a
      · rw [hcc] at hc; rw [hc] at ha; exact absurd ha (by simp)
      · exact beq_eq_false_iff_ne.mpr hcc
    rw [hca, hr]
    rfl

theorem hasSpecial_eq_false (l : List Char)
    (h : ∀ c ∈ l, isWordChar c = true) : hasSpecial l = false := by
  induction l with
  | nil => rfl
  | cons c r ih =>
    have hc : isWordChar c = true := h c (List.mem_cons_self c r)
    have hr := ih (fun x hx => h x (List.mem_cons_of_mem c hx))
    simp only [hasSpecial, List.any_cons] at hr ⊢
    rw [hc, hr]
    rfl

theorem doubleQuotes_of_no_quote (l : List Char) (h : hasChar l '"' = false) :
    doubleQuotes l = l := by
  induction l with
  | nil => rfl
  | cons c r ih =>
    simp only [hasChar, List.any_cons, Bool.or_eq_false_iff] at h
    have hc : ¬ c = '"' := by
      intro hc
      rw [hc] at h
      simp at h
    rw [doubleQuotes, if_neg hc, ih (by simp [hasChar, h.2])]

theorem dropNsI_of_no_eq (l : List Char) (h : hasChar l '=' = false) :
    dropNsI l = l := by
  unfold dropNsI
  split
  · rename_i rest
    simp [hasChar] at h
  · rfl

theorem dropNs_of_no_eq (l : List Char) (h : hasChar l '=' = false) :
    dropNs l = l := by
  unfold dropNs
  split
  · rename_i rest
    simp [hasChar] at h
  · rfl

/-- On word-only fields the normalizer is the identity: there is no
namespace prefix to strip, no quote to double, and no special character
to trigger quoting. -/
theorem normFields_wordOnly (dn dt : List Char)
    (hdn : ∀ c ∈ dn, isWordChar c = true)
    (hdt : ∀ c ∈ dt, isWordChar c = true) :
    normFields dn dt = (dn, dt) := by
  have hdteq : hasChar dt '=' = false := hasChar_eq_false dt '=' hdt (by decide)
  have h1 : dropNsI dt = dt := dropNsI_of_no_eq dt hdteq
  have h2 : dropNs dt = dt := dropNs_of_no_eq dt hdteq
  have hdtq : hasChar dt '"' = false := hasChar_eq_false dt '"' hdt (by decide)
  have hdnq : hasChar dn '"' = false := hasChar_eq_false dn '"' hdn (by decide)
  have hdq : doubleQuotes dt = dt := doubleQuotes_of_no_quote dt hdtq
  have hnq : doubleQuotes dn = dn := doubleQuotes_of_no_quote dn hdnq
  have hsn : hasSpecial dn = false := hasSpecial_eq_false dn hdn
  have hst : hasSpecial dt = false := hasSpecial_eq_false dt hdt
  simp [normFields, emitField, h1, h2, hdtq, hdnq, hdq, hnq, hsn, hst]

/-! ## CSV reading model (for the shape of emitted lines)

A standard CSV reader for one record: a field is either unquoted (runs
to the next comma) or quoted (a leading double quote, with doubled
quotes denoting a literal quote, up to the closing quote). -/

/-- Consume the remainder of a quoted field, `acc` holding the value so
far (reversed); returns the field value and the input after the closing
quote.  `none` models an unterminated quote. -/
def csvQuoted (acc : List Char) : List Char → Option (List Char × List Char)
  | [] => none
  | [c] => if c = '"' then some (acc.reverse, []) else csvQuoted (c :: acc) []
  | c :: c2 :: r2 =>
    if c = '"' then
      if c2 = '"' then csvQuoted ('"' :: acc) r2
      else some (acc.reverse, c2 :: r2)
    else csvQuoted (c :: acc) (c2 :: r2)

theorem csvQuoted_rest_le (acc : List Char) (m : List Char) :
    ∀ f rest, csvQuoted acc m = some (f, rest) → rest.length ≤ m.length := by
  induction acc, m using csvQuoted.induct with
  | case1 acc =>
    intro f rest h
    simp [csvQuoted] at h
  | case2 acc =>
    intro f rest h
    simp only [csvQuoted, eq_self_iff_true, if_true, Option.some.injEq,
      Prod.mk.injEq] at h
    obtain ⟨h1, h2⟩ := h
    subst h2
    simp
  | case3 acc c hc ih =>
    intro f rest h
    simp only [csvQuoted, if_neg hc] at h
    simp [csvQuoted] at h
  | case4 acc r2 ih =>
    intro f rest h
    simp only [csvQuoted, eq_self_iff_true, if_true] at h
    exact Nat.le_trans (ih f rest h) (Nat.le_trans (Nat.le_succ _) (Nat.le_succ _))
  | case5 acc c2 r2 hc2 =>
    intro f rest h
    simp only [csvQuoted, eq_self_iff_true, if_true, if_neg hc2,
      Option.some.injEq, Prod.mk.injEq] at h
    obtain ⟨h1, h2⟩ := h
    subst h2
    simp
  | case6 acc c c2 r2 hc ih =>
    intro f rest h
    simp only [csvQuoted, if_neg hc] at h
    exact Nat.le_trans (ih f rest h) (Nat.le_succ _)

/-- Read one CSV field; returns the field value and the rest of the input
(which, for a well-formed record, is empty or starts with a comma). -/
def csvField : List Char → Option (List Char × List Char)
  | [] => some ([], [])
  | c :: r =>
    if c = '"' then csvQuoted [] r
    else
      some ((c :: r).takeWhile (fun x => !(x == ',')),
        (c :: r).dropWhile (fun x => !(x == ',')))

theorem dropWhile_length_le (p : Char → Bool) (l : List Char) :
    (l.dropWhile p).length ≤ l.length := by
  induction l with
  | nil => exact Nat.le_refl _
  | cons c r ih =>
    rw [List.dropWhile_cons]
    by_cases h : p c = true
    · rw [if_pos h]
      exact Nat.le_trans ih (Nat.le_succ _)
    · rw [if_neg h]

theorem csvField_rest_le (l : List Char) :
    ∀ f rest, csvField l = some (f, rest) → rest.length ≤ l.length := by
  cases l with
  | nil =>
    intro f rest h
    simp only [csvField, Option.some.injEq, Prod.mk.injEq] at h
    obtain ⟨h1, h2⟩ := h
    subst h2
    exact Nat.le_refl _
  | cons c r =>
    intro f rest h
    rw [csvField] at h
    by_cases hc : c = '"'
    · rw [if_pos hc] at h
      exact Nat.le_trans (csvQuoted_rest_le [] r f rest h) (Nat.le_succ _)
    · rw [if_neg hc] at h
      simp only [Option.some.injEq, Prod.mk.injEq] at h
      obtain ⟨h1, h2⟩ := h
      subst h2
      exact dropWhile_length_le _ _

/-- Split one CSV record into its fields. -/
def csvSplit (l : List Char) : Option (List (List Char)) :=
  match h : csvField l with
  | none => none
  | some (f, []) => some [f]
  | some (f, c :: r) =>
    if c = ',' then (csvSplit r).map (fun fs => f :: fs) else none
termination_by l.length
decreasing_by
  have := csvField_rest_le l f (c :: r) h
  simp only [List.length_cons] at this
  exact Nat.lt_of_lt_of_le (Nat.lt_succ_self _) this

theorem csvSplit_of_end (l : List Char) (f : List Char)
    (h : csvField l = some (f, [])) : csvSplit l = some [f] := by
  rw [csvSplit.eq_def]
  split
  · rename_i heq
    rw [h] at heq
    simp at heq
  · rename_i heq
    rw [h] at heq
    simp only [Option.some.injEq, Prod.mk.injEq] at heq
    rw [heq.1]
  · rename_i heq
    rw [h] at heq
    simp at heq

theorem csvSplit_of_comma (l : List Char) (f r : List Char)
    (h : csvField l = some (f, ',' :: r)) :
    csvSplit l = (csvSplit r).map (fun fs => f :: fs) := by
  rw [csvSplit.eq_def]
  split
  · rename_i heq
    rw [h] at heq
    simp at heq
  · rename_i heq
    rw [h] at heq
    simp at heq
  · rename_i f2 c2 r2 heq
    rw [h] at heq
    simp only [Option.some.injEq, Prod.mk.injEq, List.cons.injEq] at heq
    obtain ⟨hf, hc, hr⟩ := heq
    rw [hf, ← hc, ← hr]
    simp

theorem takeWhile_word (F : List Char) (r : List Char)
    (h : ∀ c ∈ F, isWordChar c = true) :
    (F ++ ',' :: r).takeWhile (fun x => !(x == ',')) = F := by
  induction F with
  | nil => simp [List.takeWhile_cons]
  | cons c F2 ih =>
    have hc : isWordChar c = true := h c (List.mem_cons_self c F2)
    have hcc : (c == ',') = false := by
      by_cases hx : c = ','
      · rw [hx] at hc
        exact absurd hc (by decide)
      · exact beq_eq_false_iff_ne.mpr hx
    simp only [List.cons_append, List.takeWhile_cons, hcc]
    simp [ih (fun x hx => h x (List.mem_cons_of_mem c hx))]

theorem dropWhile_word (F : List Char) (r : List Char)
    (h : ∀ c ∈ F, isWordChar c = true) :
    (F ++ ',' :: r).dropWhile (fun x => !(x == ',')) = ',' :: r := by
  induction F with
  | nil => simp [List.dropWhile_cons]
  | cons c F2 ih =>
    have hc : isWordChar c = true := h c (List.mem_cons_self c F2)
    have hcc : (c == ',') = false := by
      by_cases hx : c = ','
      · rw [hx] at hc
        exact absurd hc (by decide)
      · exact beq_eq_false_iff_ne.mpr hx
    simp only [List.cons_append, List.dropWhile_cons, hcc]
    simp [ih (fun x hx => h x (List.mem_cons_of_mem c hx))]

/-- A word-only field followed by a comma reads back as itself. -/
theorem csvField_word_comma (F : List Char) (r : List Char)
    (h : ∀ c ∈ F, isWordChar c = true) :
    csvField (F ++ ',' :: r) = some (F, ',' :: r) := by
  cases F with
  | nil =>
    rw [List.nil_append, csvField, if_neg (by decide)]
    simp [List.takeWhile_cons, List.dropWhile_cons]
  | cons c F2 =>
    have hc : isWordChar c = true := h c (List.mem_cons_self c F2)
    have hcq : ¬ c = '"' := by
      intro hx
      rw [hx] at hc
      exact absurd hc (by decide)
    rw [List.cons_append, csvField, if_neg hcq, ← List.cons_append]
    rw [takeWhile_word (c :: F2) r h, dropWhile_word (c :: F2) r h]

/-- Reading a quoted field whose body is a quote-doubled string stops at
the closing quote and undoes the doubling. -/
theorem csvQuoted_doubleQuotes (y : List Char) :
    ∀ (acc rest : List Char), rest.head? ≠ some '"' →
      csvQuoted acc (doubleQuotes y ++ '"' :: rest) =
        some (acc.reverse ++ y, rest) := by
  induction y with
  | nil =>
    intro acc rest hr
    cases rest with
    | nil => simp [doubleQuotes, csvQuoted]
    | cons c2 r2 =>
      have hc2 : ¬ c2 = '"' := by
        intro hx
        rw [hx] at hr
        simp at hr
      simp [doubleQuotes, csvQuoted, hc2]
  | cons c y2 ih =>
    intro acc rest hr
    by_cases hc : c = '"'
    · subst hc
      rw [doubleQuotes, if_pos rfl]
      simp only [List.cons_append]
      rw [csvQuoted, if_pos rfl]
      · rw [ih ('"' :: acc) rest hr]
        simp
    · rw [doubleQuotes, if_neg hc]
      simp only [List.cons_append]
      cases hdq : doubleQuotes y2 ++ '"' :: rest with
      | nil => exact absurd hdq (by simp)
      | cons d2 r2 =>
        rw [csvQuoted.eq_def]
        simp only [hdq]
        rw [if_neg hc, ← hdq, ih (c :: acc) rest hr]
        simp

/-- A wrapped, quote-doubled field reads back as the raw value. -/
theorem csvField_wrapped (y : List Char) (rest : List Char)
    (hr : rest.head? ≠ some '"') :
    csvField (wrapQ (doubleQuotes y) ++ rest) = some (y, rest) := by
  have hw : wrapQ (doubleQuotes y) ++ rest =
      '"' :: (doubleQuotes y ++ '"' :: rest) := by
    simp [wrapQ]
  rw [hw, csvField, if_pos rfl, csvQuoted_doubleQuotes y [] rest hr]
  simp

theorem wordOnly_of_hasSpecial_false (l : List Char) (h : hasSpecial l = false) :
    ∀ c ∈ l, isWordChar c = true := by
  intro c hc
  by_contra hcc
  have hprop : hasSpecial l = true := by
    simp only [hasSpecial, List.any_eq_true]
    exact ⟨c, hc, by simp [Bool.not_eq_true] at hcc; simp [hcc]⟩
  rw [h] at hprop
  exact Bool.false_ne_true hprop

/-- Every field produced by `emitField` followed by a comma reads back as
exactly one CSV field ending right before that comma. -/
theorem csvField_emit_comma (x : List Char) (r : List Char) :
    ∃ v, csvField (emitField x ++ ',' :: r) = some (v, ',' :: r) := by
  unfold emitField
  by_cases h : hasSpecial (doubleQuotes x) = true
  · rw [if_pos h]
    exact ⟨x, csvField_wrapped x (',' :: r) (by simp)⟩
  · rw [if_neg h]
    exact ⟨doubleQuotes x,
      csvField_word_comma (doubleQuotes x) r
        (wordOnly_of_hasSpecial_false (doubleQuotes x)
          (Bool.not_eq_true _ ▸ eq_false_of_ne_true h))⟩

/-- Any line built from two `emitField` fields and the `DataType` tag
reads back as exactly three CSV fields, the third being `DataType`. -/
theorem csvSplit_line (x z : List Char) :
    ∃ a b, csvSplit (lineBody (emitField x) (emitField z)) =
      some [a, b, ("DataType".toList)] := by
  obtain ⟨v1, hv1⟩ := csvField_emit_comma x (emitField z ++ ',' :: ("DataType".toList))
  obtain ⟨v2, hv2⟩ := csvField_emit_comma z ("DataType".toList)
  have hdt : csvField ("DataType".toList) = some (("DataType".toList), []) := by decide
  refine ⟨v1, v2, ?_⟩
  rw [lineBody, csvSplit_of_comma _ _ _ hv1, csvSplit_of_comma _ _ _ hv2,
    csvSplit_of_end _ _ hdt]
  rfl

theorem modeALoop_found_some (target : String) (attrs : List (String × String))
    (rest : List Tok) (node : UAVariable) (r1 : List Tok)
    (h1 : lookupNodeId attrs = some target)
    (h2 : decodeUAVariable rest = some (node, r1)) :
    modeALoop target (.startE "UAVariable" attrs :: rest) =
      (.finished (ioCopyBase64 node.ByteString).1, r1) := by
  rw [modeALoop_start_found target attrs rest h1, h2]

/-! ## Concrete scan inputs used as evidence -/

/-- Token stream of a document whose first `UADataType` has an empty
`NodeId` (display name `A`) and whose second is complete
(`NodeId` `n1`, display name `B`). -/
def c1Toks : List Tok :=
  [.startE "UANodeSet" [],
   .startE "UADataType" [("NodeId", "")],
   .startE "DisplayName" [], .chardata "A", .endE,
   .endE,
   .startE "UADataType" [("NodeId", "n1")],
   .startE "DisplayName" [], .chardata "B", .endE,
   .endE,
   .endE]

/-- Tokens of a complete sibling `UADataType` subtree followed by the
parent's closing tag — the input the cursor should stand on after the
empty-`NodeId` element has been fully handled. -/
def c2Follow : List Tok :=
  [.startE "UADataType" [("NodeId", "n1")],
   .startE "DisplayName" [], .chardata "B", .endE,
   .endE,
   .endE]

/-- Tokens following the start element of an empty-`NodeId` `UADataType`:
its own subtree and closing tag, then `c2Follow`. -/
def c2AfterStart : List Tok :=
  [.startE "DisplayName" [], .chardata "A", .endE, .endE] ++ c2Follow

/-- Token stream of a matched `UAVariable` whose payload text violates the
base64 alphabet. -/
def c4Toks : List Tok :=
  [.startE "UAVariable" [("NodeId", "ns=1;i=5")],
   .startE "Value" [],
   .startE "ByteString" [], .chardata "!!!!", .endE,
   .endE,
   .endE]

/-- A well-formed document with one `UAVariable` whose identifier does not
match the target `T`. -/
def c7Forest : Forest :=
  .elem "UANodeSet" []
    (.elem "UAVariable" [("NodeId", "other")] (.text "payload" .nil) .nil)
    .nil

/-- Children of the matched `UAVariable` subtree used in the mode-A
first-match witness. -/
def c8Children : Forest :=
  .elem "DisplayName" [] (.text "D" .nil) .nil

/-! ## Claims -/

/-- C1: evidence against the claim that mode B excludes records with an
empty identifier or label.  On `c1Toks` — one `UADataType` with an empty
`NodeId` and display name `A`, followed by a complete one (`n1`, `B`) —
the scan emits exactly the line `A,,DataType` for the empty-identifier
record, and no line at all for the complete record (the spurious
`decoder.Skip` consumed it): the claimed output would be exactly
`B,n1,DataType`. -/
theorem c1_modeB_keeps_empty_identifier_record :
    modeBLoop c1Toks [] = .done ["A,,DataType\n"] ∧
      ¬ modeBLoop c1Toks [] = .done ["B,n1,DataType\n"] := by
  have h : modeBLoop c1Toks [] = .done ["A,,DataType\n"] := by
    rw [c1Toks, modeBLoop_start_other "UANodeSet" [] _ [] (by decide),
      modeBLoop_start_some [("NodeId", "")] _ [] ⟨"", "A"⟩
        [Tok.startE "UADataType" [("NodeId", "n1")],
         Tok.startE "DisplayName" [], Tok.chardata "B", Tok.endE,
         Tok.endE, Tok.endE] (by decide),
      show modeBHandleRest ⟨"", "A"⟩
        [Tok.startE "UADataType" [("NodeId", "n1")],
         Tok.startE "DisplayName" [], Tok.chardata "B", Tok.endE,
         Tok.endE, Tok.endE] = [] from by decide,
      modeBLoop_nil,
      show outputLine ⟨"", "A"⟩ = "A,,DataType\n" from by decide]
    decide
  exact ⟨h, by rw [h]; decide⟩

/-- C2: evidence against the cursor invariant.  After `DecodeElement` on
the empty-`NodeId` element the cursor stands exactly at `c2Follow`, the
subtree's closing boundary (the invariant the claim states) — but the
empty-field branch then calls `decoder.Skip` again, and the cursor ends
past the entire following sibling subtree and the parent's end tag
(here, at the end of input), not immediately after the handled
subtree. -/
theorem c2_empty_field_skip_overshoots_cursor :
    decodeUADataType [("NodeId", "")] c2AfterStart =
        some (⟨"", "A"⟩, c2Follow) ∧
      modeBHandleRest ⟨"", "A"⟩ c2Follow = [] ∧
      ¬ c2Follow = [] := by
  decide

/-- C3: evidence against the append-mode claim.  The source opens the
mode-B destination with `O_CREATE|O_TRUNC|O_WRONLY`: pre-existing
content is discarded, so after a run emitting one row the file holds
only that row and the prior content is gone. -/
theorem c3_modeB_truncates_destination :
    openedContent modeBOpenFlags (some "previous") = "" ∧
      modeBFileResult (some "previous") ["X,1,DataType\n"] = "X,1,DataType\n" ∧
      ¬ modeBFileResult (some "previous") ["X,1,DataType\n"] =
          "previous" ++ "X,1,DataType\n" := by
  decide

/-- C4: evidence against the fatal-`PayloadDecodeError` claim.  On a
matched record whose payload text `!!!!` violates the base64 alphabet,
the base64 copy does report an error, but the source discards
`io.Copy`'s result: the run finishes normally with an empty output
file instead of failing. -/
theorem c4_invalid_base64_run_finishes :
    modeALoop "ns=1;i=5" c4Toks = (.finished [], []) ∧
      (ioCopyBase64 "!!!!").2 = true := by
  constructor
  · rw [c4Toks]
    rw [modeALoop_found_some "ns=1;i=5" [("NodeId", "ns=1;i=5")] _
      ⟨"", "!!!!"⟩ [] (by decide) (by decide)]
    decide
  · decide

/-- C5 counterexample: for the identifier `ns=3;s="Demo"` the normalized
identifier field has twelve characters, not the eleven the claim
asserts. -/
theorem c5_field_is_not_eleven_chars :
    ((normFields ("L".toList) ("ns=3;s=\"Demo\"".toList)).2).length = 12 ∧
      ¬ ((normFields ("L".toList) ("ns=3;s=\"Demo\"".toList)).2).length = 11 := by
  decide

/-- C5 (amended): for any label, the identifier `ns=3;s="Demo"` is
normalized — namespace stripping, conditional label-quoting, quote
doubling, then non-word quoting, in the source's order — to the
twelve-character field `"s=""Demo"""`. -/
theorem c5_demo_identifier_field (dn : List Char) :
    (normFields dn ("ns=3;s=\"Demo\"".toList)).2 =
        ("\"s=\"\"Demo\"\"\"".toList) ∧
      ((normFields dn ("ns=3;s=\"Demo\"".toList)).2).length = 12 := by
  exact ⟨rfl, rfl⟩

/-- C6 counterexample: normalization is not idempotent.  For label `a b`
and identifier `x` the first pass quotes the label; the second pass
doubles those quotes and wraps again, so re-normalizing the output
changes it. -/
theorem c6_not_idempotent :
    ¬ normFields ((normFields ("a b".toList) ("x".toList)).1)
        ((normFields ("a b".toList) ("x".toList)).2) =
      normFields ("a b".toList) ("x".toList) := by
  decide

/-- C6 (amended): re-applying the normalizer to its own output yields the
same output for records whose label and identifier consist only of word
characters (letters, digits, underscore) — the case in which no quoting
fires; once quoting applies, re-normalization re-quotes, as the
counterexample shows. -/
theorem c6_idempotent_on_word_fields (dn dt : List Char)
    (hdn : ∀ c ∈ dn, isWordChar c = true)
    (hdt : ∀ c ∈ dt, isWordChar c = true) :
    normFields (normFields dn dt).1 (normFields dn dt).2 =
      normFields dn dt := by
  rw [normFields_wordOnly dn dt hdn hdt]
  exact normFields_wordOnly dn dt hdn hdt

/-- C6 witness: the amended idempotence at the concrete word-only record
with label `Simple` and identifier `DT1`. -/
theorem c6_idempotent_witness :
    (∀ c ∈ ("Simple".toList), isWordChar c = true) ∧
      (∀ c ∈ ("DT1".toList), isWordChar c = true) ∧
      normFields (normFields ("Simple".toList) ("DT1".toList)).1
          (normFields ("Simple".toList) ("DT1".toList)).2 =
        normFields ("Simple".toList) ("DT1".toList) :=
  ⟨by decide, by decide,
    c6_idempotent_on_word_fields ("Simple".toList) ("DT1".toList)
      (by decide) (by decide)⟩

/-- C7: on the token stream of any well-formed document containing no
`UAVariable` with the target identifier, mode A ends in the fatal
end-of-file error with no output file created, while mode B treats the
end of the token stream as successful completion, returning the lines
collected so far. -/
theorem c7_end_of_stream_behaviour (target : String) (f : Forest)
    (h : noMatchAnywhere target f = true) :
    modeALoop target (flat f) = (.fatalEOF, []) ∧
      modeAFile (modeALoop target (flat f)).1 = none ∧
      (∀ acc : List String, modeBLoop [] acc = .done acc) := by
  have h1 : modeALoop target (flat f) = (.fatalEOF, []) := by
    have h2 := modeALoop_noMatch target f [] h
    rw [List.append_nil] at h2
    rw [h2, modeALoop_nil]
  exact ⟨h1, by rw [h1]; rfl, fun acc => modeBLoop_nil acc⟩

/-- C7 witness: the end-of-stream behaviour at a concrete document with
one non-matching `UAVariable`. -/
theorem c7_end_of_stream_witness :
    noMatchAnywhere "T" c7Forest = true ∧
      modeALoop "T" (flat c7Forest) = (.fatalEOF, []) :=
  ⟨by decide, (c7_end_of_stream_behaviour "T" c7Forest (by decide)).1⟩

/-- C8: in mode A, when no matching element occurs before it, the first
`UAVariable` start element whose `NodeId` attribute is exactly the
caller-supplied string has its subtree decoded, and the scan returns at
once: the record is the decode of exactly that subtree, and the tokens
after the subtree's end element are returned unexamined (the result
holds for every continuation `k`). -/
theorem c8_first_match_decodes_and_stops (target : String) (f : Forest)
    (attrs : List (String × String)) (g : Forest) (k : List Tok)
    (hf : noMatchAnywhere target f = true)
    (ha : lookupNodeId attrs = some target) :
    modeALoop target
        (flat f ++ .startE "UAVariable" attrs :: (flat g ++ (.endE :: k))) =
      (.finished (ioCopyBase64 (uaVariableOf (flat g)).ByteString).1, k) := by
  rw [modeALoop_noMatch target f _ hf]
  exact modeALoop_found_some target attrs _ (uaVariableOf (flat g)) k ha
    (decodeUAVariable_flat g k)

/-- C8 witness: the first-match behaviour at a concrete stream — a text
node, then the matching `UAVariable`, then leftover input that the scan
must not touch. -/
theorem c8_first_match_witness :
    noMatchAnywhere "T" (Forest.text "hi" .nil) = true ∧
      lookupNodeId [("NodeId", "T")] = some "T" ∧
      modeALoop "T"
          (flat (Forest.text "hi" .nil) ++
            .startE "UAVariable" [("NodeId", "T")] ::
              (flat c8Children ++ (.endE :: [Tok.chardata "junk"]))) =
        (.finished
            (ioCopyBase64 (uaVariableOf (flat c8Children)).ByteString).1,
          [Tok.chardata "junk"]) :=
  ⟨by decide, by decide,
    c8_first_match_decodes_and_stops "T" (Forest.text "hi" .nil)
      [("NodeId", "T")] c8Children [Tok.chardata "junk"]
      (by decide) (by decide)⟩

/-- C9: the record with identifier `ns=2;i=1001` and label `Simple` is
emitted as exactly the line `Simple,1001,DataType` followed by a
newline: the `ns=2;i=` prefix is stripped to the bare number and the
word-only fields stay unquoted, with the unquoted literal `DataType`
third. -/
theorem c9_simple_record_line :
    outputLine ⟨"ns=2;i=1001", "Simple"⟩ = "Simple,1001,DataType\n" := by
  decide

/-- C10: the body of every emitted line parses as exactly three CSV
fields — each normalized field is either word-only or wrapped in quotes
with interior quotes doubled, so embedded commas, quotes or newlines
never split a field — and the third parsed field is exactly
`DataType`. -/
theorem c10_line_is_three_csv_fields (dn dt : List Char) :
    ∃ a b, csvSplit (lineBody (normFields dn dt).1 (normFields dn dt).2) =
      some [a, b, ("DataType".toList)] := by
  exact csvSplit_line
    (if hasChar (dropNs (dropNsI dt)) '"' && !(hasChar dn '"')
      then wrapQ dn else dn)
    (dropNs (dropNsI dt))
